import Mathlib

/-
Verification development for the sentinel-cli repository (Python).

Shallow embedding of the program logic:
  * src/src/file_handler.py  (file collection from a directory walk, zip processing)
  * src/src/git_utils.py     (staged files / staged diff retrieval)
  * src/src/ai_analyzer.py   (prompt table and the generation wrapper)
  * src/main.py              (the analyze command's control flow)

Modelling conventions:
  * A filesystem directory walk (os.walk) is a list of directories in walk
    order; each directory carries the component list of its full path
    (what root.split(os.sep) produces) and its files.  A file's content is
    an Option String: none models a read that raises IOError or
    UnicodeDecodeError (the code catches these and skips the file).
  * Python str is Lean String; Python truthiness of a string s is s != "";
    an Optional[str] is Option String, truthy iff some s with s != "".
  * Path objects are modelled by their final name component (the only part
    the code inspects via .suffix / .with_suffix); Path.suffix and
    Path.with_suffix are reimplemented from their CPython definitions
    (pySuffix, py_with_suffix).  str.lower is modelled ASCII-wise.
  * The remote generation call is an oracle value GenOutcome: success with
    an optional text payload, or failure carrying the exception text.
  * A run's observable outcome is RunResult: the process exit code, the
    output file written (path and contents), if any, and whether the
    generation request was made.
-/

namespace SentinelCLI

/-! ## Python string helpers -/

/-- Index of the last occurrence of a dot in a character list
(Python str.rfind for the needle "."), none when no dot occurs. -/
def rfind_dot : List Char → Option Nat
  | [] => none
  | c :: cs =>
    match rfind_dot cs with
    | some i => some (i + 1)
    | none => if c = '.' then some 0 else none

/-- CPython PurePath.suffix on a file name, as characters: the part of the
name from its last dot, provided the dot is neither the first nor the last
character; otherwise empty. -/
def pySuffixL (name : List Char) : List Char :=
  match rfind_dot name with
  | some i => if 0 < i ∧ i + 1 < name.length then name.drop i else []
  | none => []

/-- CPython PurePath.suffix on a file name. -/
def pySuffix (name : String) : String :=
  String.mk (pySuffixL name.data)

/-- CPython PurePath.with_suffix on a file name: none models the
ValueError raised for a suffix containing a separator, a suffix that is
nonempty but does not start with a dot or equals a bare dot, or an empty
name; otherwise the old suffix (possibly empty) is replaced by the new
one.  Posix separators only (altsep is None on posix). -/
def py_with_suffix (name suffix : String) : Option String :=
  if suffix.data.contains '/' then none
  else if (suffix ≠ "" ∧ suffix.data.take 1 ≠ ['.']) ∨ suffix = "." then none
  else if name = "" then none
  else
    let old := pySuffix name
    if old = "" then some (name ++ suffix)
    else some (String.mk (name.data.take (name.data.length - old.data.length)) ++ suffix)

/-- Python str.lower, modelled character-wise (ASCII case folding). -/
def pyLower (s : String) : String :=
  String.mk (s.data.map Char.toLower)

/-- Python substring containment (needle in hay). -/
def str_contains_sub (hay needle : String) : Bool :=
  (List.range (hay.data.length + 1)).any
    (fun i => (hay.data.drop i).take needle.data.length == needle.data)

/-- Python truthiness of an Optional[str]: None and the empty string are
falsy. -/
def py_truthy_opt : Option String → Bool
  | none => false
  | some s => s != ""

/-! ## file_handler.py -/

/-- The IGNORED_DIRS set from src/src/file_handler.py. -/
def IGNORED_DIRS : List String :=
  ["node_modules", ".git", ".next", "__pycache__", "dist"]

/-- The ALLOWED_EXTENSIONS list from src/src/file_handler.py. -/
def ALLOWED_EXTENSIONS : List String :=
  [".js", ".ts", ".tsx", ".json", ".css", ".html", ".md", ".py", ".go", ".rs"]

/-- The MAX_CHAR_LIMIT constant from src/src/file_handler.py. -/
def MAX_CHAR_LIMIT : Nat := 2000000

/-- A file seen during the walk: its name and its content; none models a
read that raises (caught and skipped by the code). -/
structure PyFile where
  name : String
  content : Option String
deriving DecidableEq

/-- One directory yielded by os.walk: the component list of its full path
(root.split(os.sep)) and the plain files directly inside it. -/
structure WalkDir where
  path : List String
  files : List PyFile
deriving DecidableEq

/-- Python os.path.relpath(file_path, project_path) for a walk directory below
the project root: the path components past the root, joined with the
separator, ending in the file name. -/
def relPath (projectPath dirPath : List String) (fname : String) : String :=
  String.intercalate "/" (dirPath.drop projectPath.length ++ [fname])

/-- The text appended to the buffer for one collected file: start marker,
content, end marker, exactly as built in read_project_files_from_dir. -/
def entryFor (rel c : String) : String :=
  "\n\n--- Start of file: " ++ rel ++ " ---\n" ++ c ++ "\n--- End of file: " ++ rel ++ " ---\n"

/-- The ignore test of read_project_files_from_dir: some ignored directory
name occurs among the components of the walk root's full path. -/
def dirIgnored (dirPath : List String) : Bool :=
  IGNORED_DIRS.any (fun ig => dirPath.contains ig)

/-- What one file contributes to the buffer: its delimited entry when its
extension is allowed and it is readable, nothing otherwise. -/
def fileEntry (projectPath dirPath : List String) (f : PyFile) : Option String :=
  if ALLOWED_EXTENSIONS.contains (pySuffix f.name) then
    f.content.map (fun c => entryFor (relPath projectPath dirPath f.name) c)
  else none

/-- Inner loop of read_project_files_from_dir over the files of one walk
directory: appends each eligible file's entry, and after each append
checks the limit; the Bool is true when the function returned early
because the buffer exceeded MAX_CHAR_LIMIT. -/
def collectFiles (projectPath dirPath : List String) :
    List PyFile → String → String × Bool
  | [], acc => (acc, false)
  | f :: fs, acc =>
    match fileEntry projectPath dirPath f with
    | none => collectFiles projectPath dirPath fs acc
    | some e =>
      let acc2 := acc ++ e
      if MAX_CHAR_LIMIT < acc2.length then (acc2, true)
      else collectFiles projectPath dirPath fs acc2

/-- Outer loop of read_project_files_from_dir over the walk directories:
a directory whose full path has an ignored component is skipped; an early
return from the inner loop ends the whole walk. -/
def collectDirs (projectPath : List String) : List WalkDir → String → String
  | [], acc => acc
  | d :: ds, acc =>
    if dirIgnored d.path then collectDirs projectPath ds acc
    else
      match collectFiles projectPath d.path d.files acc with
      | (acc2, true) => acc2
      | (acc2, false) => collectDirs projectPath ds acc2

/-- The function read_project_files_from_dir from src/src/file_handler.py, over the
walk of the project directory. -/
def read_project_files_from_dir (projectPath : List String) (walk : List WalkDir) : String :=
  collectDirs projectPath walk ""

/-- The entries of the eligible files of one directory, in order. -/
def fileEntries (projectPath dirPath : List String) (fs : List PyFile) : List String :=
  fs.filterMap (fileEntry projectPath dirPath)

/-- The entries of all eligible files of the walk, in walk order. -/
def dirEntries (projectPath : List String) (walk : List WalkDir) : List String :=
  (walk.filter (fun d => !dirIgnored d.path)).flatMap
    (fun d => fileEntries projectPath d.path d.files)

/-- The eligible files of the walk, each with the path of its directory
and the entry it contributes. -/
def eligibleFilesAnn (projectPath : List String) (walk : List WalkDir) :
    List ((List String × PyFile) × String) :=
  (walk.filter (fun d => !dirIgnored d.path)).flatMap
    (fun d => d.files.filterMap
      (fun f => (fileEntry projectPath d.path f).map (fun e => ((d.path, f), e))))

/-- Concatenation of a list of strings, in order. -/
def sjoin : List String → String
  | [] => ""
  | s :: ss => s ++ sjoin ss

/-- The errors process_zip_file can raise: FileNotFoundError,
zipfile.BadZipFile, and the ValueError for an archive with no valid
files. -/
inductive ZipError where
  | fileNotFound : ZipError
  | badZipFile : ZipError
  | noValidFiles : ZipError
deriving DecidableEq

/-- The function process_zip_file from src/src/file_handler.py: the existence check
and the extraction are modelled by the two Booleans; on success the
collector runs over the walk of the temporary extraction directory, and
an empty result raises the no-valid-files ValueError. -/
def process_zip_file (zip_exists extract_ok : Bool) (temp_dir : List String)
    (walk : List WalkDir) : Except ZipError String :=
  if zip_exists = false then .error .fileNotFound
  else if extract_ok = false then .error .badZipFile
  else
    let project_code := read_project_files_from_dir temp_dir walk
    if project_code = "" then .error .noValidFiles
    else .ok project_code

/-! ## git_utils.py -/

/-- The EMPTY_TREE_SHA constant from src/src/git_utils.py. -/
def EMPTY_TREE_SHA : String := "4b825dc642cb6eb9a060e54bf8d69288fbee4904"

/-- One entry of the index-vs-HEAD diff (repo.index.diff): the a_path (an Optional[str])
and the change type letter. -/
structure DiffItem where
  a_path : Option String
  change_type : String
deriving DecidableEq

/-- One item yielded by repo.index.iter_blobs(): a (stage, Blob) tuple.
The first component is the integer conflict stage, NOT the file path; the
Blob carries its own path and its decoded data stream (none models a read
that raises IOError or UnicodeDecodeError, caught and skipped by the
code). -/
structure IndexBlob where
  stage : Nat
  path : String
  data : Option String
deriving DecidableEq

/-- The git repository state the functions of git_utils.py observe:
whether HEAD is valid, the (stage, blob) items repo.index.iter_blobs()
yields, the entries of the index-vs-HEAD diff, and the working tree
(path and content readable via open; none models a missing or unreadable
file). -/
structure GitState where
  head_valid : Bool
  index_blobs : List IndexBlob
  diff_head : List DiffItem
  working_tree : List (String × Option String)

/-- Reading a path from the working tree with open(): the content when
the file exists and decodes, none otherwise (IOError or
UnicodeDecodeError, caught by the code). -/
def wt_read (g : GitState) (p : String) : Option String :=
  match g.working_tree.find? (fun e => e.1 == p) with
  | some e => e.2
  | none => none

/-- A key of the Python dict built by get_staged_files_content: the
no-commit branch keys by an integer (the stage), the HEAD-valid branch
by a string (the file path). -/
inductive PyKey where
  | pyInt (n : Nat) : PyKey
  | pyStr (s : String) : PyKey
deriving DecidableEq, BEq

/-- Python dict assignment d[k] = v: when the key is already present its
value is updated in place (insertion order preserved), otherwise the
pair is appended. -/
def dictAssign (d : List (PyKey × String)) (k : PyKey) (v : String) :
    List (PyKey × String) :=
  if d.any (fun e => e.1 == k) then
    d.map (fun e => if e.1 == k then (k, v) else e)
  else d ++ [(k, v)]

/-- The function get_staged_files_content from src/src/git_utils.py.
With no valid HEAD it iterates repo.index.iter_blobs(), whose items are
(stage, blob) tuples; the destructuring in the source, path, blob = item,
therefore binds the INTEGER STAGE to the variable named path, so the dict
is keyed by the stage and each successfully read blob overwrites the
previous one at the same stage — the blob's actual path is never
consulted.  With a valid HEAD it enumerates repo.index.diff("HEAD"),
keeps entries with a truthy a_path and change type A or M, and reads each
path from the working tree (skipping failed reads). -/
def get_staged_files_content (g : GitState) : List (PyKey × String) :=
  if g.head_valid = false then
    g.index_blobs.foldl
      (fun d ib =>
        match ib.data with
        | some c => dictAssign d (PyKey.pyInt ib.stage) c
        | none => d)
      []
  else
    g.diff_head.filterMap (fun item =>
      match item.a_path with
      | none => none
      | some p =>
        if p ≠ "" ∧ (item.change_type = "A" ∨ item.change_type = "M") then
          (wt_read g p).map (fun c => (PyKey.pyStr p, c))
        else none)

/-- The function get_staged_diff from src/src/git_utils.py, as the argument list it
passes to git diff: with no valid HEAD it appends EMPTY_TREE_SHA to
the staged diff invocation, otherwise it passes no revision. -/
def get_staged_diff_args (g : GitState) : List String :=
  if g.head_valid = false then ["--staged", "--no-color", EMPTY_TREE_SHA]
  else ["--staged", "--no-color"]

/-- The baseline a git diff invocation compares the index against. -/
inductive DiffBase where
  | head : DiffBase
  | tree (sha : String) : DiffBase
deriving DecidableEq

/-- Modelled from the spec and git semantics: git diff --staged compares
the index against the revision argument when one is given (the first
argument that is not an option flag), and against HEAD by default. -/
def diff_base_of (args : List String) : DiffBase :=
  match args.filter (fun a => !(a.data.take 2 == ['-', '-'])) with
  | [] => .head
  | r :: _ => .tree r

/-! ## ai_analyzer.py -/

/-- The documentation prompt template of src/src/ai_analyzer.py. -/
def documentationPrompt : String :=
  "\n          Act as a senior software engineer and generate a professional, clear, and concise technical documentation in Markdown.\n          Include: 1. Project Overview 2. File Structure 3. Key Components & Responsibilities 4. Setup & Usage Instructions.\n        "

/-- The improvements prompt template of src/src/ai_analyzer.py. -/
def improvementsPrompt : String :=
  "\n          Act as a senior software engineer and review the code.\n          Provide detailed improvement suggestions in Markdown, categorized by:\n          1. Code Quality 2. Bug Risks 3. Performance Enhancements 4. Security Best Practices.\n        "

/-- The commits prompt template of src/src/ai_analyzer.py. -/
def commitsPrompt : String :=
  "\n          Act as an experienced software engineer. Based on the following 'git diff', generate a clear and concise commit message following Conventional Commits specification.\n          The message should have a header, an optional body, and an optional footer.\n          Example: feat(api): add new endpoint for users\n        "

/-- The apply-improvements prompt template of src/src/ai_analyzer.py. -/
def applyImprovementsPrompt : String :=
  "\n          Act as a senior software engineer. Based on the provided code, rewrite it by applying best practices for quality, performance, and security.\n          Your response should ONLY be the modified code, with no explanations, so I can apply it directly as a patch.\n          If there are multiple files, format the output as a .diff file.\n        "

/-- The prompts dictionary of generate_ai_analysis. -/
def prompts : List (String × String) :=
  [("documentation", documentationPrompt),
   ("improvements", improvementsPrompt),
   ("commits", commitsPrompt),
   ("apply-improvements", applyImprovementsPrompt)]

/-- The keys of the prompts dictionary. -/
def promptKeys : List String := prompts.map (fun kv => kv.1)

/-- The message generate_ai_analysis returns for a task outside the
prompts dictionary. -/
def UNKNOWN_TASK_MSG : String :=
  "❌ Unknown task. The available tasks are: documentation, improvements, commits, apply-improvements."

/-- The placeholder generate_ai_analysis returns when the model response
has a falsy text payload. -/
def NO_CONTENT_MSG : String := "⚠️ The ai model did not return any content."

/-- The formatted error string generate_ai_analysis returns when the
generation request raises. -/
def genErrorMsg (e : String) : String := "❌ Error generating AI analysis: " ++ e

/-- The outcome of the remote generation request, were it made: a
response carrying an optional text payload, or an exception carrying its
text. -/
inductive GenOutcome where
  | success (text : Option String) : GenOutcome
  | failure (err : String) : GenOutcome

/-- The function generate_ai_analysis from src/src/ai_analyzer.py: for a task outside
the prompts dictionary it returns the unknown-task message without making
the request; otherwise it makes the request, returning the response text
(or the placeholder when the text is falsy), and on any exception the
formatted error string.  The Bool records whether the request was made. -/
def generate_ai_analysis (gen : GenOutcome) (code_context task model_name : String) :
    String × Bool :=
  if promptKeys.contains task = false then (UNKNOWN_TASK_MSG, false)
  else
    match gen with
    | .success none => (NO_CONTENT_MSG, true)
    | .success (some t) => (if t = "" then NO_CONTENT_MSG else t, true)
    | .failure e => (genErrorMsg e, true)

/-! ## main.py -/

/-- The observable outcome of one run of the analyze command: the process
exit code, the output file written (its path and contents), if any, and
whether the generation request was made. -/
structure RunResult where
  exitCode : Nat
  outputFile : Option (String × String)
  networkCalled : Bool
deriving DecidableEq

/-- The environment one run of analyze observes: the API key option (None
when neither the flag nor the environment variable supplies one), whether
client construction succeeds, whether the working directory is inside a
git repository, the value process_zip_file would produce were it called,
the results of the three git_utils readers, and the generation outcome. -/
structure Env where
  api_key : Option String
  client_ok : Bool
  is_git_repo : Bool
  zip_result : Except ZipError String
  tracked_files : List (String × String)
  staged_files : List (String × String)
  staged_diff : String
  gen : GenOutcome

/-- One block of the delimited multi-file format built in main.py's
analyze for the documentation and improvements tasks. -/
def fileBlock (p c : String) : String :=
  "--- Start of file: " ++ p ++ " ---\n" ++ c ++ "\n--- End of file: " ++ p ++ " ---"

/-- The delimited multi-file context: the blocks joined by blank lines. -/
def joinFileBlocks (fs : List (String × String)) : String :=
  String.intercalate "\n\n" (fs.map (fun pc => fileBlock pc.1 pc.2))

/-- The context-gathering phase of analyze (src/main.py lines 57-105):
either a context string, or the RunResult of an early exit (typer.Exit
with code 1 for errors, code 0 for the no-op conditions). -/
def gather_context (env : Env) (task : String) (has_path : Bool) :
    Except RunResult String :=
  if has_path = true then
    if task = "commits" ∨ task = "apply-improvements" then .error ⟨1, none, false⟩
    else
      match env.zip_result with
      | .error _ => .error ⟨1, none, false⟩
      | .ok code => .ok code
  else if env.is_git_repo = false then .error ⟨1, none, false⟩
  else if task = "documentation" then
    if env.tracked_files = [] then .error ⟨1, none, false⟩
    else .ok (joinFileBlocks env.tracked_files)
  else if task = "improvements" ∨ task = "commits" ∨ task = "apply-improvements" then
    if task = "improvements" then
      if env.staged_files = [] then .error ⟨0, none, false⟩
      else .ok (joinFileBlocks env.staged_files)
    else if env.staged_diff = "" then .error ⟨0, none, false⟩
    else .ok env.staged_diff
  else .error ⟨1, none, false⟩

/-- The tail of analyze after the generation call (src/main.py lines
109-120): force the output path's extension to .diff for the
apply-improvements task (with_suffix raising for an empty name, modelled
as none, and writing to an empty path raising as well; an uncaught
exception ends the process with a non-zero code and no file); write the
result; exit 1 under the CI check (CI mode, task improvements, and the
lowercased result containing the word improvements), else 0. -/
def write_phase (result : String) (network : Bool) (task output : String)
    (ci_mode : Bool) : RunResult :=
  match (if task = "apply-improvements" then py_with_suffix output ".diff" else some output) with
  | none => ⟨1, none, network⟩
  | some op =>
    if op = "" then ⟨1, none, network⟩
    else
      ⟨(if ci_mode = true ∧ task = "improvements" ∧
          str_contains_sub (pyLower result) "improvements" = true then 1 else 0),
       some (op, result), network⟩

/-- The analyze command of src/main.py: check the API key and build the
client; gather context (possibly exiting early); run
generate_ai_analysis; then the write phase. -/
def analyze (env : Env) (task : String) (has_path : Bool)
    (output model_name : String) (ci_mode : Bool) : RunResult :=
  if py_truthy_opt env.api_key = false then ⟨1, none, false⟩
  else if env.client_ok = false then ⟨1, none, false⟩
  else
    match gather_context env task has_path with
    | .error r => r
    | .ok context =>
      let rn := generate_ai_analysis env.gen context task model_name
      write_phase rn.1 rn.2 task output ci_mode

/-! ## Helper lemmas -/

theorem gather_context_error (env : Env) (task : String) (hp : Bool) (r : RunResult)
    (h : gather_context env task hp = .error r) :
    r.outputFile = none ∧ r.networkCalled = false := by
  unfold gather_context at h
  repeat' split at h
  all_goals (cases h <;> exact ⟨rfl, rfl⟩)

theorem write_phase_networkCalled (result : String) (network : Bool)
    (task output : String) (ci : Bool) :
    (write_phase result network task output ci).networkCalled = network := by
  unfold write_phase
  split
  · rfl
  · split <;> rfl

theorem write_phase_outputFile (result : String) (network : Bool)
    (task output : String) (ci : Bool) (p c : String)
    (h : (write_phase result network task output ci).outputFile = some (p, c)) :
    c = result ∧
    (task = "apply-improvements" → py_with_suffix output ".diff" = some p) ∧
    (task ≠ "apply-improvements" → p = output) ∧
    (write_phase result network task output ci).exitCode =
      (if ci = true ∧ task = "improvements" ∧
          str_contains_sub (pyLower result) "improvements" = true then 1 else 0) := by
  by_cases ht : task = "apply-improvements"
  · subst ht
    cases hw : py_with_suffix output ".diff" with
    | none => simp [write_phase, hw] at h
    | some op =>
      by_cases hop : op = ""
      · simp [write_phase, hw, hop] at h
      · simp [write_phase, hw, hop] at h ⊢
        exact ⟨h.2.symm, h.1⟩
  · by_cases hop : output = ""
    · simp [write_phase, ht, hop] at h
    · simp [write_phase, ht, hop] at h ⊢
      exact ⟨h.2.symm, h.1.symm⟩

theorem analyze_ok_shape (env : Env) (task : String) (has_path : Bool)
    (output model_name : String) (ci : Bool) (p c : String)
    (hf : (analyze env task has_path output model_name ci).outputFile = some (p, c)) :
    ∃ context, gather_context env task has_path = .ok context ∧
      analyze env task has_path output model_name ci =
        write_phase (generate_ai_analysis env.gen context task model_name).1
          (generate_ai_analysis env.gen context task model_name).2 task output ci := by
  cases h1 : py_truthy_opt env.api_key with
  | false => simp [analyze, h1] at hf
  | true =>
    cases h2 : env.client_ok with
    | false => simp [analyze, h1, h2] at hf
    | true =>
      cases h3 : gather_context env task has_path with
      | error rr =>
        simp [analyze, h1, h2, h3] at hf
        rw [(gather_context_error env task has_path rr h3).1] at hf
        simp at hf
      | ok context =>
        refine ⟨context, rfl, ?_⟩
        simp [analyze, h1, h2, h3]


theorem rfind_dot_append (a b : List Char) :
    rfind_dot (a ++ b) =
      (match rfind_dot b with
       | some j => some (a.length + j)
       | none => rfind_dot a) := by
  induction a with
  | nil =>
    cases hb : rfind_dot b <;> simp [hb, rfind_dot]
  | cons x xs ih =>
    cases hb : rfind_dot b with
    | some j =>
      rw [hb] at ih; simp at ih
      simp [rfind_dot, ih, List.append_eq]
      omega
    | none =>
      rw [hb] at ih; simp at ih
      simp [rfind_dot, ih, List.append_eq]

theorem string_ne_empty_iff (s : String) : s ≠ "" ↔ s.data ≠ [] := by
  rw [ne_eq, ne_eq, String.ext_iff]

theorem pySuffix_append_diff (s : String) (hs : s ≠ "") :
    pySuffix (s ++ ".diff") = ".diff" := by
  have hd : s.data ≠ [] := (string_ne_empty_iff s).mp hs
  have hn : 0 < s.data.length := List.length_pos.mpr hd
  have hdata : (s ++ ".diff").data = s.data ++ ['.', 'd', 'i', 'f', 'f'] := by
    simp [String.data_append]
  unfold pySuffix pySuffixL
  rw [hdata, rfind_dot_append]
  have h0 : rfind_dot ['.', 'd', 'i', 'f', 'f'] = some 0 := by decide
  rw [h0]
  simp only [List.length_append, List.length_cons, List.length_nil, Nat.add_zero]
  rw [if_pos (by omega)]
  rw [List.drop_left]

theorem pySuffixL_spec (l : List Char) :
    pySuffixL l = [] ∨
      ∃ i, rfind_dot l = some i ∧ 0 < i ∧ i + 1 < l.length ∧ pySuffixL l = l.drop i := by
  cases hr : rfind_dot l with
  | none => exact Or.inl (by unfold pySuffixL; rw [hr])
  | some i =>
    by_cases hc : 0 < i ∧ i + 1 < l.length
    · refine Or.inr ⟨i, rfl, hc.1, hc.2, ?_⟩
      unfold pySuffixL; rw [hr]
      exact if_pos hc
    · refine Or.inl ?_
      unfold pySuffixL; rw [hr]
      exact if_neg hc

theorem py_with_suffix_diff (output op : String)
    (h : py_with_suffix output ".diff" = some op) :
    pySuffix op = ".diff" ∧ op ≠ "" := by
  simp only [py_with_suffix] at h
  rw [if_neg (by decide), if_neg (by decide)] at h
  by_cases hn : output = ""
  · rw [if_pos hn] at h; cases h
  · rw [if_neg hn] at h
    by_cases hold : pySuffix output = ""
    · rw [if_pos hold] at h
      cases h
      refine ⟨pySuffix_append_diff output hn, ?_⟩
      rw [string_ne_empty_iff]
      simp [String.data_append]
    · rw [if_neg hold] at h
      cases h
      have hl : pySuffixL output.data ≠ [] := by
        intro hc
        exact hold (by simp [pySuffix, hc])
      rcases pySuffixL_spec output.data with hc | ⟨i, hri, hi0, hilt, hdrop⟩
      · exact absurd hc hl
      have hidx : output.data.length - (pySuffix output).data.length = i := by
        have hlen : (pySuffix output).data.length = output.data.length - i := by
          simp [pySuffix, hdrop]
        omega
      rw [hidx]
      have hP : String.mk (output.data.take i) ≠ "" := by
        rw [string_ne_empty_iff]
        show output.data.take i ≠ []
        intro hc
        have hlc : (output.data.take i).length = 0 := by rw [hc]; rfl
        rw [List.length_take] at hlc
        omega
      refine ⟨pySuffix_append_diff _ hP, ?_⟩
      rw [string_ne_empty_iff]
      simp [String.data_append]

/-! ## Claim theorems: the analyze command -/

/-- Claim C1 (amended): for every task name outside the enumerated set
{documentation, improvements, commits, apply-improvements}, a run WITHOUT
an archive path fails: exit code 1, no output file written, no generation
request made.  (With an archive path the unknown task is not rejected;
see the counterexample.) -/
theorem unknown_task_without_archive_fails (env : Env) (task : String)
    (output model_name : String) (ci : Bool)
    (h1 : task ≠ "documentation") (h2 : task ≠ "improvements")
    (h3 : task ≠ "commits") (h4 : task ≠ "apply-improvements") :
    analyze env task false output model_name ci = ⟨1, none, false⟩ := by
  cases hk : py_truthy_opt env.api_key with
  | false => simp [analyze, hk]
  | true =>
    cases hc : env.client_ok with
    | false => simp [analyze, hk, hc]
    | true => simp [analyze, gather_context, hk, hc, h1, h2, h3, h4]

/-- Claim C1 counterexample: with an archive path supplied (and a valid,
non-empty archive), the unknown task name "foo" does NOT fail: the zip is
processed, the unknown-task message becomes the result, the output file
IS written, and the process exits 0 (no generation request is made). -/
theorem unknown_task_with_archive_cex :
    (analyze ⟨some "k", true, true, .ok "code", [], [], "", .success (some "t")⟩
        "foo" true "output.md" "m" false).exitCode = 0 ∧
    (analyze ⟨some "k", true, true, .ok "code", [], [], "", .success (some "t")⟩
        "foo" true "output.md" "m" false).outputFile
      = some ("output.md", UNKNOWN_TASK_MSG) ∧
    (analyze ⟨some "k", true, true, .ok "code", [], [], "", .success (some "t")⟩
        "foo" true "output.md" "m" false).networkCalled = false := by
  refine ⟨rfl, rfl, rfl⟩

/-- Claim C1 witness. -/
theorem unknown_task_without_archive_fails_witness :
    analyze ⟨some "k", true, true, .ok "code", [], [], "", .success (some "t")⟩
        "foo" false "output.md" "m" false = ⟨1, none, false⟩ :=
  unknown_task_without_archive_fails _ "foo" "output.md" "m" false
    (by decide) (by decide) (by decide) (by decide)

/-- Claim C6: for every run where the task is commits or
apply-improvements and an archive path is supplied, the run fails with
exit code 1, writes no output file, and makes no generation request
(the unsupported-combination check fires before any network call). -/
theorem git_only_task_with_archive_fails (env : Env) (task : String)
    (output model_name : String) (ci : Bool)
    (h : task = "commits" ∨ task = "apply-improvements") :
    analyze env task true output model_name ci = ⟨1, none, false⟩ := by
  cases hk : py_truthy_opt env.api_key with
  | false => simp [analyze, hk]
  | true =>
    cases hc : env.client_ok with
    | false => simp [analyze, hk, hc]
    | true => rcases h with h | h <;> subst h <;> simp [analyze, gather_context, hk, hc]

/-- Claim C6 witness. -/
theorem git_only_task_with_archive_fails_witness :
    analyze ⟨some "k", true, true, .ok "code", [], [], "d", .success (some "t")⟩
        "commits" true "output.md" "m" false = ⟨1, none, false⟩ :=
  git_only_task_with_archive_fails _ "commits" "output.md" "m" false (Or.inl rfl)

/-- Claim C5: for every run without an archive path, with a usable API
key, client, and git repository, where the gathered context is empty (no
staged files for task improvements; empty staged diff for task commits or
apply-improvements), the run exits with code 0, writes no output file,
and makes no generation request. -/
theorem empty_context_is_noop (env : Env) (task : String)
    (output model_name : String) (ci : Bool)
    (hk : py_truthy_opt env.api_key = true) (hc : env.client_ok = true)
    (hg : env.is_git_repo = true)
    (h : (task = "improvements" ∧ env.staged_files = []) ∨
         ((task = "commits" ∨ task = "apply-improvements") ∧ env.staged_diff = "")) :
    analyze env task false output model_name ci = ⟨0, none, false⟩ := by
  rcases h with ⟨ht, hs⟩ | ⟨ht, hs⟩
  · subst ht
    simp [analyze, gather_context, hk, hc, hg, hs]
  · rcases ht with ht | ht <;> subst ht <;>
      simp [analyze, gather_context, hk, hc, hg, hs]

/-- Claim C5 witness. -/
theorem empty_context_is_noop_witness :
    analyze ⟨some "k", true, true, .ok "code", [], [], "", .success (some "t")⟩
        "commits" false "output.md" "m" false = ⟨0, none, false⟩ :=
  empty_context_is_noop _ "commits" "output.md" "m" false rfl rfl rfl
    (Or.inr ⟨Or.inl rfl, rfl⟩)

/-- Claim C4 (amended): for every exception raised during the generation
request (the request was made and the oracle is a failure), whenever the
run writes an output file, that file contains exactly the formatted error
string, which begins with the error marker; the exit code is 0 except
when CI mode is on with task improvements and the lowercased error text
contains the word improvements, in which case it is 1 (file still
written). -/
theorem generation_failure_written_as_result (env : Env) (task : String)
    (has_path : Bool) (output model_name : String) (ci : Bool) (e p r : String)
    (hg : env.gen = .failure e)
    (hn : (analyze env task has_path output model_name ci).networkCalled = true)
    (hf : (analyze env task has_path output model_name ci).outputFile = some (p, r)) :
    r = genErrorMsg e ∧ (∃ t, r = "❌" ++ t) ∧
    (analyze env task has_path output model_name ci).exitCode =
      (if ci = true ∧ task = "improvements" ∧
          str_contains_sub (pyLower (genErrorMsg e)) "improvements" = true
       then 1 else 0) := by
  obtain ⟨context, hctx, heq⟩ :=
    analyze_ok_shape env task has_path output model_name ci p r hf
  rw [heq] at hn hf ⊢
  rw [write_phase_networkCalled] at hn
  cases hct : promptKeys.contains task with
  | false =>
    have hu : generate_ai_analysis env.gen context task model_name
        = (UNKNOWN_TASK_MSG, false) := by
      unfold generate_ai_analysis
      rw [hct]
      rfl
    rw [hu] at hn
    simp at hn
  | true =>
    have hrn : generate_ai_analysis env.gen context task model_name
        = (genErrorMsg e, true) := by
      unfold generate_ai_analysis
      rw [hct, hg]
      rfl
    rw [hrn] at hf ⊢
    obtain ⟨hr, _, _, hec⟩ :=
      write_phase_outputFile (genErrorMsg e) true task output ci p r hf
    refine ⟨hr, ⟨" Error generating AI analysis: " ++ e, ?_⟩, hec⟩
    have hsplit : "❌ Error generating AI analysis: "
        = "❌" ++ " Error generating AI analysis: " := rfl
    rw [hr, genErrorMsg, hsplit, String.append_assoc]

/-- Claim C4 counterexample: CI mode on, task improvements, and a
generation exception whose text contains the word improvements: the
output file is still written with the error string, but the process exits
1, not 0 as the claim states. -/
theorem generation_failure_ci_exit_cex :
    analyze ⟨some "k", true, true, .ok "code", [], [("a.py", "c")], "", .failure "improvements"⟩
        "improvements" false "output.md" "m" true
      = ⟨1, some ("output.md", genErrorMsg "improvements"), true⟩ := by
  rfl

/-- Claim C4 witness. -/
theorem generation_failure_written_as_result_witness :
    ((⟨some "k", true, true, .ok "code", [], [], "d", .failure "boom"⟩ : Env).gen
        = GenOutcome.failure "boom") ∧
    (analyze ⟨some "k", true, true, .ok "code", [], [], "d", .failure "boom"⟩
        "commits" false "output.md" "m" false).networkCalled = true ∧
    (analyze ⟨some "k", true, true, .ok "code", [], [], "d", .failure "boom"⟩
        "commits" false "output.md" "m" false).outputFile
      = some ("output.md", genErrorMsg "boom") ∧
    (genErrorMsg "boom" = genErrorMsg "boom" ∧
      (∃ t, genErrorMsg "boom" = "❌" ++ t) ∧
      (analyze ⟨some "k", true, true, .ok "code", [], [], "d", .failure "boom"⟩
          "commits" false "output.md" "m" false).exitCode =
        (if false = true ∧ "commits" = "improvements" ∧
            str_contains_sub (pyLower (genErrorMsg "boom")) "improvements" = true
         then 1 else 0)) :=
  ⟨rfl, rfl, rfl,
    generation_failure_written_as_result
      ⟨some "k", true, true, .ok "code", [], [], "d", .failure "boom"⟩
      "commits" false "output.md" "m" false
      "boom" "output.md" (genErrorMsg "boom") rfl rfl rfl⟩

/-- Claim C9: for every run that writes an output file, if the task is
apply-improvements then the written path's extension (CPython
Path.suffix) is .diff; for every other task the file is written to the
user-supplied output name unchanged. -/
theorem output_extension_forced_for_apply (env : Env) (task : String)
    (has_path : Bool) (output model_name : String) (ci : Bool) (p c : String)
    (hf : (analyze env task has_path output model_name ci).outputFile = some (p, c)) :
    (task = "apply-improvements" → pySuffix p = ".diff") ∧
    (task ≠ "apply-improvements" → p = output) := by
  obtain ⟨context, hctx, heq⟩ :=
    analyze_ok_shape env task has_path output model_name ci p c hf
  rw [heq] at hf
  obtain ⟨_, hap, hnap, _⟩ := write_phase_outputFile _ _ task output ci p c hf
  refine ⟨fun ht => ?_, hnap⟩
  have := hap ht
  exact ((py_with_suffix_diff output p this).1)

/-- Claim C9 witness. -/
theorem output_extension_forced_for_apply_witness :
    (analyze ⟨some "k", true, true, .ok "code", [], [], "d", .success (some "t")⟩
        "apply-improvements" false "out.md" "m" false).outputFile
      = some ("out.diff", "t") ∧
    (("apply-improvements" = "apply-improvements" → pySuffix "out.diff" = ".diff") ∧
      ("apply-improvements" ≠ "apply-improvements" → "out.diff" = "out.md")) :=
  ⟨rfl,
    output_extension_forced_for_apply
      ⟨some "k", true, true, .ok "code", [], [], "d", .success (some "t")⟩
      "apply-improvements" false "out.md" "m" false "out.diff" "t" rfl⟩

/-! ## Claim theorems: git_utils -/

/-- Claim C2 (code bug evidence): in a repository with no commit (HEAD
invalid) and two staged, readable files a.py and b.py, both at stage 0,
get_staged_files_content returns the single pair (0, "print(2)"): a dict
keyed by the integer stage holding only the LAST blob's content, because
the source destructures the (stage, blob) tuples of iter_blobs() as
path, blob = item.  No staged file appears under its path, contradicting
the claim and the function's own docstring ("Returns a mapping of file
paths to their contents") and its Dict[str, str] annotation. -/
theorem staged_files_no_commit_stage_keyed :
    get_staged_files_content
        ⟨false, [⟨0, "a.py", some "print(1)"⟩, ⟨0, "b.py", some "print(2)"⟩], [], []⟩
      = [(PyKey.pyInt 0, "print(2)")] := by
  decide

/-- Claim C7: for every repository state, the staged diff is computed
against the canonical empty tree when no commit exists (HEAD invalid) and
against HEAD otherwise; in particular with no commit the diff base is
never HEAD. -/
theorem staged_diff_base (g : GitState) :
    diff_base_of (get_staged_diff_args g)
      = (if g.head_valid = true then DiffBase.head
         else DiffBase.tree EMPTY_TREE_SHA) ∧
    (g.head_valid = false →
      diff_base_of (get_staged_diff_args g) ≠ DiffBase.head) := by
  have hargs : get_staged_diff_args g
      = (if g.head_valid = false then ["--staged", "--no-color", EMPTY_TREE_SHA]
         else ["--staged", "--no-color"]) := rfl
  cases hv : g.head_valid with
  | false =>
    rw [hargs, hv]
    exact ⟨by decide, fun _ => by decide⟩
  | true =>
    rw [hargs, hv]
    exact ⟨by decide, fun h => absurd h (by decide)⟩

/-- Claim C7 witness. -/
theorem staged_diff_base_witness :
    (diff_base_of (get_staged_diff_args ⟨false, [], [], []⟩)
        = (if (false : Bool) = true then DiffBase.head
           else DiffBase.tree EMPTY_TREE_SHA) ∧
      ((false : Bool) = false →
        diff_base_of (get_staged_diff_args ⟨false, [], [], []⟩) ≠ DiffBase.head)) ∧
    diff_base_of (get_staged_diff_args ⟨false, [], [], []⟩) ≠ DiffBase.head :=
  ⟨staged_diff_base ⟨false, [], [], []⟩,
   (staged_diff_base ⟨false, [], [], []⟩).2 rfl⟩

/-! ## Collector lemmas -/

theorem sjoin_append (a b : List String) : sjoin (a ++ b) = sjoin a ++ sjoin b := by
  induction a with
  | nil => simp [sjoin]
  | cons x xs ih => simp [sjoin, ih, String.append_assoc]

theorem collectFiles_cons_some (pp dp : List String) (f : PyFile) (fs : List PyFile)
    (acc e : String) (he : fileEntry pp dp f = some e) :
    collectFiles pp dp (f :: fs) acc
      = (if MAX_CHAR_LIMIT < (acc ++ e).length then (acc ++ e, true)
         else collectFiles pp dp fs (acc ++ e)) := by
  rw [collectFiles, he]

theorem collectFiles_spec (pp dp : List String) (fs : List PyFile) (acc : String) :
    ∃ k, k ≤ (fileEntries pp dp fs).length ∧
      (collectFiles pp dp fs acc).1 = acc ++ sjoin ((fileEntries pp dp fs).take k) ∧
      ((collectFiles pp dp fs acc).2 = false →
        k = (fileEntries pp dp fs).length ∧
        (collectFiles pp dp fs acc).1.length ≤ max acc.length MAX_CHAR_LIMIT) ∧
      ((collectFiles pp dp fs acc).2 = true →
        MAX_CHAR_LIMIT < (collectFiles pp dp fs acc).1.length) ∧
      (∀ M, (∀ e ∈ fileEntries pp dp fs, e.length ≤ M) →
        (collectFiles pp dp fs acc).1.length ≤ max acc.length MAX_CHAR_LIMIT + M) := by
  induction fs generalizing acc with
  | nil =>
    refine ⟨0, Nat.le_refl 0, by simp [collectFiles, fileEntries, sjoin], ?_, ?_, ?_⟩
    · exact fun _ => ⟨rfl, by simp [collectFiles, le_max_left]⟩
    · intro h; simp [collectFiles] at h
    · intro M _
      simp only [collectFiles]
      exact le_trans (le_max_left _ _) (Nat.le_add_right _ _)
  | cons f fs ih =>
    cases he : fileEntry pp dp f with
    | none =>
      have hcf : collectFiles pp dp (f :: fs) acc = collectFiles pp dp fs acc := by
        rw [collectFiles, he]
      have hfe : fileEntries pp dp (f :: fs) = fileEntries pp dp fs := by
        simp [fileEntries, List.filterMap_cons, he]
      rw [hcf, hfe]
      exact ih acc
    | some e =>
      have hfe : fileEntries pp dp (f :: fs) = e :: fileEntries pp dp fs := by
        simp [fileEntries, List.filterMap_cons, he]
      by_cases hlim : MAX_CHAR_LIMIT < (acc ++ e).length
      · have hcf : collectFiles pp dp (f :: fs) acc = (acc ++ e, true) := by
          rw [collectFiles_cons_some pp dp f fs acc e he, if_pos hlim]
        rw [hcf, hfe]
        refine ⟨1, Nat.succ_le_succ (Nat.zero_le _), by simp [sjoin], ?_, ?_, ?_⟩
        · intro h; cases h
        · exact fun _ => hlim
        · intro M hM
          rw [String.length_append]
          have he1 : e.length ≤ M := hM e (List.mem_cons_self _ _)
          exact Nat.add_le_add (le_trans (le_max_left _ _) (Nat.le_refl _)) he1
      · have hcf : collectFiles pp dp (f :: fs) acc = collectFiles pp dp fs (acc ++ e) := by
          rw [collectFiles_cons_some pp dp f fs acc e he, if_neg hlim]
        have hacc2 : (acc ++ e).length ≤ MAX_CHAR_LIMIT := Nat.le_of_not_lt hlim
        obtain ⟨k, hk, h2, h3, h4, h5⟩ := ih (acc ++ e)
        rw [hcf, hfe]
        refine ⟨k + 1, Nat.succ_le_succ hk, ?_, ?_, ?_, ?_⟩
        · rw [h2, List.take_succ_cons, sjoin, String.append_assoc]
        · intro h
          obtain ⟨hk2, hb⟩ := h3 h
          refine ⟨by rw [hk2, List.length_cons], le_trans hb ?_⟩
          rw [max_eq_right hacc2]
          exact le_max_right _ _
        · exact h4
        · intro M hM
          have := h5 M (fun x hx => hM x (List.mem_cons_of_mem _ hx))
          refine le_trans this ?_
          rw [max_eq_right hacc2]
          exact Nat.add_le_add_right (le_max_right _ _) M

theorem collectDirs_cons (pp : List String) (d : WalkDir) (ds : List WalkDir)
    (acc : String) :
    collectDirs pp (d :: ds) acc
      = (if dirIgnored d.path then collectDirs pp ds acc
         else
           match collectFiles pp d.path d.files acc with
           | (acc2, true) => acc2
           | (acc2, false) => collectDirs pp ds acc2) := by
  rw [collectDirs]

theorem dirEntries_cons_ignored (pp : List String) (d : WalkDir) (ds : List WalkDir)
    (hd : dirIgnored d.path = true) :
    dirEntries pp (d :: ds) = dirEntries pp ds := by
  simp [dirEntries, List.filter_cons, hd]

theorem dirEntries_cons_ok (pp : List String) (d : WalkDir) (ds : List WalkDir)
    (hd : dirIgnored d.path = false) :
    dirEntries pp (d :: ds) = fileEntries pp d.path d.files ++ dirEntries pp ds := by
  simp [dirEntries, List.filter_cons, hd]

theorem collectDirs_spec (pp : List String) (walk : List WalkDir) (acc : String) :
    ∃ k, k ≤ (dirEntries pp walk).length ∧
      collectDirs pp walk acc = acc ++ sjoin ((dirEntries pp walk).take k) ∧
      (k < (dirEntries pp walk).length →
        MAX_CHAR_LIMIT < (collectDirs pp walk acc).length) ∧
      (∀ M, (∀ e ∈ dirEntries pp walk, e.length ≤ M) →
        (collectDirs pp walk acc).length ≤ max acc.length MAX_CHAR_LIMIT + M) := by
  induction walk generalizing acc with
  | nil =>
    refine ⟨0, Nat.le_refl 0, by simp [collectDirs, dirEntries, sjoin], ?_, ?_⟩
    · intro h; exact absurd h (by simp [dirEntries])
    · intro M _
      simp only [collectDirs]
      exact le_trans (le_max_left _ _) (Nat.le_add_right _ _)
  | cons d ds ih =>
    by_cases hig : dirIgnored d.path = true
    · rw [collectDirs_cons, if_pos hig, dirEntries_cons_ignored pp d ds hig]
      exact ih acc
    · have hig2 : dirIgnored d.path = false := by
        cases h : dirIgnored d.path
        · rfl
        · exact absurd h hig
      obtain ⟨k1, hk1, g2, g3, g4, g5⟩ := collectFiles_spec pp d.path d.files acc
      rcases hcf : collectFiles pp d.path d.files acc with ⟨a2, st⟩
      rw [hcf] at g2 g3 g4 g5
      simp only at g2 g3 g4 g5
      cases st with
      | true =>
        have hstep : collectDirs pp (d :: ds) acc = a2 := by
          rw [collectDirs_cons, if_neg hig, hcf]
        rw [hstep, dirEntries_cons_ok pp d ds hig2]
        refine ⟨k1, ?_, ?_, ?_, ?_⟩
        · rw [List.length_append]
          exact le_trans hk1 (Nat.le_add_right _ _)
        · rw [List.take_append_of_le_length hk1]
          exact g2
        · intro _
          exact g4 rfl
        · intro M hM
          exact g5 M (fun x hx => hM x (List.mem_append_left _ hx))
      | false =>
        have hstep : collectDirs pp (d :: ds) acc = collectDirs pp ds a2 := by
          rw [collectDirs_cons, if_neg hig, hcf]
        rw [hstep, dirEntries_cons_ok pp d ds hig2]
        obtain ⟨hk1e, hb⟩ := g3 rfl
        obtain ⟨k2, hk2, i2, i3, i4⟩ := ih a2
        refine ⟨(fileEntries pp d.path d.files).length + k2, ?_, ?_, ?_, ?_⟩
        · rw [List.length_append]
          exact Nat.add_le_add_left hk2 _
        · rw [List.take_append, i2, g2, hk1e, List.take_length,
            String.append_assoc, ← sjoin_append]
        · intro hlt
          rw [List.length_append] at hlt
          exact i3 (Nat.lt_of_add_lt_add_left hlt)
        · intro M hM
          have hi := i4 M (fun x hx => hM x (List.mem_append_right _ hx))
          omega

/-! ## Claim theorems: the file collector -/

/-- Claim C3: for every directory walk, the collector's returned buffer
length never exceeds MAX_CHAR_LIMIT plus the length of one file's
appended delimited entry (the bound M on the eligible entries), because
the overflow check runs only after appending the entry that crosses the
threshold; and the buffer is exactly the concatenation of a prefix of the
eligible entries such that, whenever that prefix is proper (further files
remained), the buffer already exceeds the limit — the function returned
immediately without reading them. -/
theorem collector_limit_bound (pp : List String) (walk : List WalkDir) (M : Nat)
    (hM : ∀ e ∈ dirEntries pp walk, e.length ≤ M) :
    (read_project_files_from_dir pp walk).length ≤ MAX_CHAR_LIMIT + M ∧
    ∃ k, k ≤ (dirEntries pp walk).length ∧
      read_project_files_from_dir pp walk = sjoin ((dirEntries pp walk).take k) ∧
      (k < (dirEntries pp walk).length →
        MAX_CHAR_LIMIT < (read_project_files_from_dir pp walk).length) := by
  obtain ⟨k, hk, h2, h3, h4⟩ := collectDirs_spec pp walk ""
  rw [read_project_files_from_dir]
  refine ⟨?_, k, hk, ?_, h3⟩
  · have hb := h4 M hM
    have hz : ("" : String).length = 0 := rfl
    omega
  · rw [h2]
    have hz : ∀ t : String, "" ++ t = t := fun t => rfl
    exact hz _

/-- Claim C3 witness. -/
theorem collector_limit_bound_witness :
    (∀ e ∈ dirEntries [] [⟨[], [⟨"a.py", some "hi"⟩]⟩], e.length ≤ 100) ∧
    ((read_project_files_from_dir [] [⟨[], [⟨"a.py", some "hi"⟩]⟩]).length
        ≤ MAX_CHAR_LIMIT + 100 ∧
      ∃ k, k ≤ (dirEntries [] [⟨[], [⟨"a.py", some "hi"⟩]⟩]).length ∧
        read_project_files_from_dir [] [⟨[], [⟨"a.py", some "hi"⟩]⟩]
          = sjoin ((dirEntries [] [⟨[], [⟨"a.py", some "hi"⟩]⟩]).take k) ∧
        (k < (dirEntries [] [⟨[], [⟨"a.py", some "hi"⟩]⟩]).length →
          MAX_CHAR_LIMIT
            < (read_project_files_from_dir [] [⟨[], [⟨"a.py", some "hi"⟩]⟩]).length)) :=
  ⟨by decide, collector_limit_bound [] [⟨[], [⟨"a.py", some "hi"⟩]⟩] 100 (by decide)⟩

theorem fileEntries_eq_map (pp dp : List String) (fs : List PyFile) :
    fileEntries pp dp fs
      = (fs.filterMap (fun f => (fileEntry pp dp f).map (fun e => ((dp, f), e)))).map
          (fun x => x.2) := by
  induction fs with
  | nil => rfl
  | cons f fs ih =>
    cases he : fileEntry pp dp f <;>
      simp [fileEntries, List.filterMap_cons, he, ← ih]

/-- The entries carried by eligibleFilesAnn are exactly the eligible
entries of the walk, in order. -/
theorem dirEntries_eq_map (pp : List String) (walk : List WalkDir) :
    dirEntries pp walk = (eligibleFilesAnn pp walk).map (fun x => x.2) := by
  unfold dirEntries eligibleFilesAnn
  rw [List.map_flatMap]
  congr 1
  funext d
  exact fileEntries_eq_map pp d.path d.files

/-- Claim C8: for every directory walk, the collected buffer is exactly
the concatenation of the entries of a prefix of the eligible files; every
eligible file has an extension in the allow-list, and its directory's
full path has no component in the ignore set — so no disallowed-extension
file and no file under an ignored directory ever contributes content. -/
theorem collector_only_eligible_files (pp : List String) (walk : List WalkDir) :
    ∃ l r, l ++ r = eligibleFilesAnn pp walk ∧
      read_project_files_from_dir pp walk = sjoin (l.map (fun x => x.2)) ∧
      ∀ x ∈ eligibleFilesAnn pp walk,
        ALLOWED_EXTENSIONS.contains (pySuffix x.1.2.name) = true ∧
        dirIgnored x.1.1 = false ∧
        ∀ ig ∈ IGNORED_DIRS, ¬ ig ∈ x.1.1 := by
  obtain ⟨k, hk, h2, h3, h4⟩ := collectDirs_spec pp walk ""
  refine ⟨(eligibleFilesAnn pp walk).take k, (eligibleFilesAnn pp walk).drop k,
    List.take_append_drop k _, ?_, ?_⟩
  · rw [read_project_files_from_dir, h2, List.map_take, ← dirEntries_eq_map]
    exact (fun t => rfl : ∀ t : String, "" ++ t = t) _
  · intro x hx
    unfold eligibleFilesAnn at hx
    rw [List.mem_flatMap] at hx
    obtain ⟨d, hd, hx⟩ := hx
    rw [List.mem_filter] at hd
    rw [List.mem_filterMap] at hx
    obtain ⟨f, hf, hfx⟩ := hx
    cases he : fileEntry pp d.path f with
    | none => rw [he] at hfx; cases hfx
    | some e =>
      rw [he] at hfx
      simp only [Option.map_some'] at hfx
      cases hfx
      have hig : dirIgnored d.path = false := by
        have := hd.2
        cases h : dirIgnored d.path
        · rfl
        · rw [h] at this; cases this
      refine ⟨?_, hig, ?_⟩
      · by_cases hc : ALLOWED_EXTENSIONS.contains (pySuffix f.name) = true
        · exact hc
        · rw [fileEntry, if_neg hc] at he
          cases he
      · intro ig higm higp
        have hd2 : dirIgnored d.path = true := by
          unfold dirIgnored
          rw [List.any_eq_true]
          exact ⟨ig, higm, List.elem_eq_true_of_mem higp⟩
        rw [hig] at hd2
        cases hd2

/-- Claim C8 witness. -/
theorem collector_only_eligible_files_witness :
    ∃ l r, l ++ r = eligibleFilesAnn [] [⟨[], [⟨"a.py", some "hi"⟩]⟩] ∧
      read_project_files_from_dir [] [⟨[], [⟨"a.py", some "hi"⟩]⟩]
        = sjoin (l.map (fun x => x.2)) ∧
      ∀ x ∈ eligibleFilesAnn [] [⟨[], [⟨"a.py", some "hi"⟩]⟩],
        ALLOWED_EXTENSIONS.contains (pySuffix x.1.2.name) = true ∧
        dirIgnored x.1.1 = false ∧ ∀ ig ∈ IGNORED_DIRS, ¬ ig ∈ x.1.1 :=
  collector_only_eligible_files [] [⟨[], [⟨"a.py", some "hi"⟩]⟩]

/-- Claim C10 (implicit): whenever the walk root's own path has a
component in the ignore set, every walked directory inherits it (its path
extends the root's), so the collector skips everything and returns the
empty string, and process_zip_file on such an extraction location raises
its no-valid-files error. -/
theorem ignored_root_collects_nothing (pp : List String) (walk : List WalkDir)
    (ig : String) (hig : ig ∈ IGNORED_DIRS) (higp : ig ∈ pp)
    (hwalk : ∀ d ∈ walk, d.path.take pp.length = pp) :
    read_project_files_from_dir pp walk = "" ∧
    process_zip_file true true pp walk = .error .noValidFiles := by
  have hempty : ∀ w, (∀ d ∈ w, d.path.take pp.length = pp) →
      collectDirs pp w "" = "" := by
    intro w
    induction w with
    | nil => intro _; rfl
    | cons d ds ih =>
      intro hw
      have hp : ig ∈ d.path :=
        List.take_subset pp.length d.path
          ((hw d (List.mem_cons_self _ _)).symm ▸ higp)
      have hd : dirIgnored d.path = true := by
        unfold dirIgnored
        rw [List.any_eq_true]
        exact ⟨ig, hig, List.elem_eq_true_of_mem hp⟩
      rw [collectDirs_cons, if_pos hd]
      exact ih (fun x hx => hw x (List.mem_cons_of_mem _ hx))
  have h1 : read_project_files_from_dir pp walk = "" := hempty walk hwalk
  refine ⟨h1, ?_⟩
  have hred : process_zip_file true true pp walk
      = (if read_project_files_from_dir pp walk = ""
         then (Except.error ZipError.noValidFiles : Except ZipError String)
         else Except.ok (read_project_files_from_dir pp walk)) := rfl
  rw [hred, if_pos h1]

/-- Claim C10 witness. -/
theorem ignored_root_collects_nothing_witness :
    ("dist" ∈ IGNORED_DIRS ∧ "dist" ∈ ["tmp", "dist", "x"] ∧
      (∀ d ∈ [(⟨["tmp", "dist", "x"], [⟨"a.py", some "hi"⟩]⟩ : WalkDir)],
        d.path.take (["tmp", "dist", "x"] : List String).length
          = ["tmp", "dist", "x"])) ∧
    (read_project_files_from_dir ["tmp", "dist", "x"]
        [⟨["tmp", "dist", "x"], [⟨"a.py", some "hi"⟩]⟩] = "" ∧
      process_zip_file true true ["tmp", "dist", "x"]
        [⟨["tmp", "dist", "x"], [⟨"a.py", some "hi"⟩]⟩]
        = .error .noValidFiles) :=
  ⟨⟨by decide, by decide, by decide⟩,
   ignored_root_collects_nothing ["tmp", "dist", "x"]
     [⟨["tmp", "dist", "x"], [⟨"a.py", some "hi"⟩]⟩] "dist"
     (by decide) (by decide) (by decide)⟩

end SentinelCLI
